import Mathlib

/-!
Shallow embedding of the JSON-RPC request/response correlation layer of the
HTTP client (`src/client/http/client.rs`): the identifier allocator, request
building, and response validation for notifications, single calls and batch
calls.  The asynchronous transport is abstracted as a function from the
request envelope to the transport outcome; the `u64` counter is a `Nat`
reduced modulo `2 ^ 64` exactly where the atomic `fetch_add` wraps.
-/

namespace Jsonrpsee

/-- JSON values (`jsonrpc::JsonValue`), the opaque payloads carried by
parameters and results. -/
inductive JsonValue where
  | null
  | bool (b : Bool)
  | num (n : Int)
  | str (s : String)
  | arr (elems : List JsonValue)
  | obj (fields : List (String × JsonValue))

/-- Request parameters (`jsonrpc::Params`): absent, positional or named. -/
inductive Params where
  | none
  | array (elems : List JsonValue)
  | map (fields : List (String × JsonValue))

/-- Protocol version tag (`jsonrpc::Version`). -/
inductive Version where
  | v2
deriving DecidableEq

/-- Correlation identifiers (`jsonrpc::Id`): null, string, or numeric
(`u64`, embedded as `Nat`; the allocator only ever produces values below
`2 ^ 64`). -/
inductive Id where
  | null
  | str (s : String)
  | num (n : Nat)
deriving DecidableEq

/-- `Id::as_number`: `Some` exactly on numeric IDs. -/
def Id.as_number : Id → Option Nat
  | .num n => some n
  | _ => Option.none

/-- A method call (`jsonrpc::MethodCall`): version tag, method name,
parameters and a correlation ID. -/
structure MethodCall where
  jsonrpc : Version
  method : String
  params : Params
  id : Id

/-- A notification (`jsonrpc::Notification`): like a method call but with no
correlation ID. -/
structure Notification where
  jsonrpc : Version
  method : String
  params : Params

/-- One request (`jsonrpc::Call`). -/
inductive Call where
  | methodCall (c : MethodCall)
  | notification (n : Notification)

/-- The request envelope (`jsonrpc::Request`): a single call or a batch. -/
inductive Request where
  | single (c : Call)
  | batch (cs : List Call)

/-- Modelled from the spec: the structured error payload of a response
(`jsonrpc::Error`, defined in the crate's `types::jsonrpc` module, which is
not among the provided sources) — "the server returned a well-formed
protocol-level error object; carries server code/message verbatim". -/
structure RpcError where
  code : Int
  message : String
deriving DecidableEq

/-- Modelled from the spec: a single response member (`jsonrpc::Output`,
defined in the crate's `types::jsonrpc` module, which is not among the
provided sources) — each single result "carries a CorrelationId and either a
success payload (JSON value) or a structured error payload". -/
inductive Output where
  | success (result : JsonValue) (id : Id)
  | failure (error : RpcError) (id : Id)

/-- `Output::id`. -/
def Output.idOf : Output → Id
  | .success _ id => id
  | .failure _ id => id

/-- Modelled from the spec: `TryInto<JsonValue> for Output` — "decode
payload; if payload is an error object, surface the server-supplied
code/message; else return the success value". -/
def Output.tryIntoValue : Output → Except RpcError JsonValue
  | .success result _ => .ok result
  | .failure error _ => .error error

/-- Modelled from the spec: a response from the transport
(`jsonrpc::Response`): single, batch, or a notification acknowledgement
("illegal in this protocol, must be rejected"). -/
inductive Response where
  | single (o : Output)
  | batch (os : List Output)
  | notif (n : Notification)

/-- Modelled from the spec: an opaque transport failure ("the underlying
channel failed (connection, encoding, size limit); opaque to this layer,
passed through"). -/
structure TransportError where
  message : String
deriving DecidableEq

/-- The client error type (`types::client::Error`), restricted to the
variants the client uses: `TransportError`, `InvalidRequestId`,
`Request` (an RPC-level error object) and `Custom` (a catch-all message). -/
inductive Error where
  | transportError (e : TransportError)
  | invalidRequestId
  | request (e : RpcError)
  | custom (msg : String)
deriving DecidableEq

/-- `u64::MAX + 1`: the modulus at which the atomic request counter wraps. -/
def U64_MOD : Nat := 2 ^ 64

/-- The client state visible to this layer: the `request_id: AtomicU64`
counter.  The transport handle is abstracted away (each operation takes the
transport behaviour as a function argument). -/
structure HttpClient where
  request_id : Nat

/-- `self.request_id.fetch_add(1, Ordering::SeqCst)`: returns the previous
value and stores the incremented value, wrapping on overflow. -/
def HttpClient.fetch_add_id (c : HttpClient) : Nat × HttpClient :=
  (c.request_id, ⟨(c.request_id + 1) % U64_MOD⟩)

/-- `HttpClient::new` initialises the counter to zero (the transport
construction is elided). -/
def HttpClient.new : HttpClient := ⟨0⟩

/-- The notification envelope built by `HttpClient::notification`. -/
def notification_envelope (method : String) (params : Params) : Request :=
  Request.single (Call.notification ⟨Version.v2, method, params⟩)

/-- `HttpClient::notification`: build the notification envelope, hand it to
the transport's fire-and-forget send, and map a transport failure to
`Error::TransportError`.  Returns the result together with the (unchanged)
client state. -/
def HttpClient.notification (c : HttpClient) (method : String) (params : Params)
    (send_notification : Request → Except TransportError Unit) :
    Except Error Unit × HttpClient :=
  let request := notification_envelope method params
  ((send_notification request).mapError Error.transportError, c)

/-- The single-call envelope built by `HttpClient::request` for a given
allocated ID. -/
def request_envelope (method : String) (params : Params) (id : Nat) : Request :=
  Request.single (Call.methodCall ⟨Version.v2, method, params, Id.num id⟩)

/-- `HttpClient::process_response`: accept a single response member only if
its ID is numeric and equals the expected ID, then decode its payload;
otherwise `Error::InvalidRequestId`. -/
def process_response (response : Output) (expected_id : Nat) : Except Error JsonValue :=
  match response.idOf.as_number with
  | some n => if n = expected_id then response.tryIntoValue.mapError Error.request
              else .error Error.invalidRequestId
  | Option.none => .error Error.invalidRequestId

/-- `HttpClient::request`: allocate an ID with `fetch_add`, build the single
call, send it, and validate the response: a `Single` response goes through
`process_response`; `Batch` and `Notif` responses are rejected with
`Error::Custom` messages. -/
def HttpClient.request (c : HttpClient) (method : String) (params : Params)
    (transport : Request → Except TransportError Response) :
    Except Error JsonValue × HttpClient :=
  let (id, c') := c.fetch_add_id
  let result :=
    match transport (request_envelope method params id) with
    | .error e => .error (Error.transportError e)
    | .ok (Response.single rp) => process_response rp id
    | .ok (Response.batch _) =>
        .error (Error.custom "Server replied with batch response to a single request")
    | .ok (Response.notif _) =>
        .error (Error.custom ("Server replied with notification response to request ID: "
          ++ toString id))
  (result, c')

/-- The ID-allocation and call-building loop of `HttpClient::batch_request`:
for each `(method, params)` item, in order, allocate an ID with `fetch_add`,
push the method call, and insert the ID into the expected-ID set.  Returns
the calls, the ID set, and the final client state. -/
def build_batch (c : HttpClient) : List (String × Params) →
    List Call × Finset Nat × HttpClient
  | [] => ([], ∅, c)
  | (method, params) :: rest =>
    let (id, c') := c.fetch_add_id
    let (calls, ids, c'') := build_batch c' rest
    (Call.methodCall ⟨Version.v2, method, params, Id.num id⟩ :: calls,
      insert id ids, c'')

/-- The response loop of `HttpClient::batch_request`: for each received
member, in order, require a numeric ID, remove it from the working set of
expected IDs (failing with `Error::InvalidRequestId` if absent — covering
non-numeric, unknown and duplicated IDs), decode the payload (failing with
`Error::Request` on an embedded RPC error), and accumulate the decoded
values in received order. -/
def process_batch_members (ids : Finset Nat) (acc : List JsonValue) :
    List Output → Except Error (List JsonValue)
  | [] => .ok acc.reverse
  | rp :: rest =>
    match rp.idOf.as_number with
    | Option.none => .error Error.invalidRequestId
    | some n =>
      if n ∈ ids then
        match rp.tryIntoValue with
        | .error e => .error (Error.request e)
        | .ok v => process_batch_members (ids.erase n) (v :: acc) rest
      else .error Error.invalidRequestId

/-- `HttpClient::batch_request`: build the batch (allocating one ID per
item), send it, and validate the response: a `Single` or `Notif` response is
rejected with `Error::Custom`; a `Batch` response is processed member by
member against the expected-ID set. -/
def HttpClient.batch_request (c : HttpClient) (requests : List (String × Params))
    (transport : Request → Except TransportError Response) :
    Except Error (List JsonValue) × HttpClient :=
  let (calls, ids, c') := build_batch c requests
  let result :=
    match transport (Request.batch calls) with
    | .error e => .error (Error.transportError e)
    | .ok (Response.single _) =>
        .error (Error.custom "Server replied with single response to a batch request")
    | .ok (Response.notif _) =>
        .error (Error.custom "Server replied with notification to a a batch request")
    | .ok (Response.batch rps) => process_batch_members ids [] rps
  (result, c')

/-! ### Derived notions used to state the claims -/

/-- The correlation ID (if any) carried by a call: the `id` field of a
`MethodCall`; a `Notification` carries none. -/
def Call.correlation_id : Call → Option Id
  | .methodCall mc => some mc.id
  | .notification _ => Option.none

/-- The numeric member IDs of a list of calls, in order. -/
def member_ids (calls : List Call) : List Nat :=
  calls.filterMap (fun call => call.correlation_id.bind Id.as_number)

/-- The trace of IDs handed out by `k` successive `fetch_add` allocations
starting from client state `c`. -/
def alloc_ids (c : HttpClient) : Nat → List Nat
  | 0 => []
  | k + 1 =>
    let (id, c') := c.fetch_add_id
    id :: alloc_ids c' k

/-- The working set of expected IDs left by the response loop of
`batch_request` after it has successfully consumed the members in `pre`
(each carried a numeric ID still in the working set and decoded to a
value); `Option.none` when the loop would already have failed inside
`pre`.  Derived from `process_batch_members`, forgetting the accumulated
payloads. -/
def remaining_after (ids : Finset Nat) : List Output → Option (Finset Nat)
  | [] => some ids
  | rp :: rest =>
    match rp.idOf.as_number with
    | Option.none => Option.none
    | some n =>
      if n ∈ ids then
        match rp.tryIntoValue with
        | .error _ => Option.none
        | .ok _ => remaining_after (ids.erase n) rest
      else Option.none

/-! ### Helper lemmas -/

theorem alloc_ids_eq_range' (k n : Nat) (h : n + k ≤ U64_MOD) :
    alloc_ids ⟨n⟩ k = List.range' n k := by
  induction k generalizing n with
  | zero => rfl
  | succ k ih =>
    have hstep : alloc_ids ⟨n⟩ (k + 1)
        = n :: alloc_ids ⟨(n + 1) % U64_MOD⟩ k := rfl
    rw [hstep, List.range'_succ]
    by_cases hlt : n + 1 < U64_MOD
    · rw [Nat.mod_eq_of_lt hlt, ih (n + 1) (by omega)]
    · have hk : k = 0 := by omega
      subst hk
      rfl

theorem U64_MOD_pos : 0 < U64_MOD := by norm_num [U64_MOD]

theorem build_batch_counter (n : Nat) (reqs : List (String × Params))
    (h : n < U64_MOD) :
    (build_batch ⟨n⟩ reqs).2.2.request_id = (n + reqs.length) % U64_MOD := by
  induction reqs generalizing n with
  | nil =>
    show n = (n + 0) % U64_MOD
    rw [Nat.add_zero, Nat.mod_eq_of_lt h]
  | cons mp rest ih =>
    obtain ⟨m, p⟩ := mp
    show (build_batch ⟨(n + 1) % U64_MOD⟩ rest).2.2.request_id = _
    rw [ih ((n + 1) % U64_MOD) (Nat.mod_lt _ U64_MOD_pos), Nat.mod_add_mod]
    congr 1
    simp
    omega

theorem build_batch_calls_eq (n : Nat) (reqs : List (String × Params))
    (h : n + reqs.length ≤ U64_MOD) :
    (build_batch ⟨n⟩ reqs).1
      = List.zipWith
          (fun mp i => Call.methodCall ⟨Version.v2, mp.1, mp.2, Id.num i⟩)
          reqs (List.range' n reqs.length) := by
  induction reqs generalizing n with
  | nil => rfl
  | cons mp rest ih =>
    obtain ⟨m, p⟩ := mp
    rw [List.length_cons, List.range'_succ]
    show Call.methodCall ⟨Version.v2, m, p, Id.num n⟩
          :: (build_batch ⟨(n + 1) % U64_MOD⟩ rest).1 = _
    by_cases hlt : n + 1 < U64_MOD
    · rw [Nat.mod_eq_of_lt hlt, ih (n + 1) (by simp at h; omega)]
      rfl
    · have hk : rest.length = 0 := by simp at h; omega
      rw [List.length_eq_zero] at hk
      subst hk
      rfl

theorem build_batch_ids_eq (n : Nat) (reqs : List (String × Params))
    (h : n + reqs.length ≤ U64_MOD) :
    (build_batch ⟨n⟩ reqs).2.1 = (List.range' n reqs.length).toFinset := by
  induction reqs generalizing n with
  | nil => rfl
  | cons mp rest ih =>
    obtain ⟨m, p⟩ := mp
    rw [List.length_cons, List.range'_succ]
    show insert n (build_batch ⟨(n + 1) % U64_MOD⟩ rest).2.1 = _
    by_cases hlt : n + 1 < U64_MOD
    · rw [Nat.mod_eq_of_lt hlt, ih (n + 1) (by simp at h; omega)]
      simp
    · have hk : rest.length = 0 := by simp at h; omega
      rw [List.length_eq_zero] at hk
      subst hk
      simp [build_batch]

theorem build_batch_ids_card (n : Nat) (reqs : List (String × Params))
    (h : n + reqs.length ≤ U64_MOD) :
    (build_batch ⟨n⟩ reqs).2.1.card = reqs.length := by
  rw [build_batch_ids_eq n reqs h,
    List.toFinset_card_of_nodup (List.nodup_range' n reqs.length 1 Nat.one_pos),
    List.length_range']

theorem member_ids_zipWith (reqs : List (String × Params)) (ns : List Nat)
    (h : reqs.length = ns.length) :
    member_ids (List.zipWith
        (fun mp i => Call.methodCall ⟨Version.v2, mp.1, mp.2, Id.num i⟩)
        reqs ns) = ns := by
  induction reqs generalizing ns with
  | nil =>
    cases ns with
    | nil => rfl
    | cons x xs => simp at h
  | cons mp rest ih =>
    cases ns with
    | nil => simp at h
    | cons x xs =>
      simp only [List.zipWith_cons_cons, member_ids, List.filterMap_cons]
      show x :: member_ids (List.zipWith _ rest xs) = x :: xs
      rw [ih xs (by simpa using h)]

/-! ### Claims about the single-call path -/

/-- C1: for a single call, a `Single` response whose ID is not numeric or
differs from the allocated ID makes `request` fail with
`Error::InvalidRequestId`, returning no payload. -/
theorem request_mismatched_id_invalid (c : HttpClient) (method : String)
    (params : Params) (transport : Request → Except TransportError Response)
    (rp : Output)
    (ht : transport (request_envelope method params c.request_id)
            = .ok (Response.single rp))
    (hid : rp.idOf.as_number ≠ some c.request_id) :
    (c.request method params transport).1 = .error Error.invalidRequestId := by
  have hexp : (c.request method params transport).1
      = process_response rp c.request_id := by
    simp only [HttpClient.request, HttpClient.fetch_add_id, ht]
  rw [hexp]
  unfold process_response
  cases hn : rp.idOf.as_number with
  | none => rfl
  | some n =>
    show (if n = c.request_id then Except.mapError Error.request rp.tryIntoValue
          else Except.error Error.invalidRequestId)
        = Except.error Error.invalidRequestId
    rw [if_neg]
    intro hEq
    exact hid (hEq ▸ hn)

theorem request_mismatched_id_invalid_witness :
    (HttpClient.request ⟨0⟩ "echo" Params.none
        (fun _ => .ok (Response.single
          (Output.success JsonValue.null (Id.num 5))))).1
      = .error Error.invalidRequestId :=
  request_mismatched_id_invalid ⟨0⟩ "echo" Params.none _ _ rfl (by decide)

/-- C9: `notification` builds a notification envelope carrying no
correlation ID, performs the one fire-and-forget transport send, leaves the
client state (in particular the `request_id` counter) unchanged, and
returns `Ok(())` exactly when the transport send succeeds, mapping a
transport failure to `Error::TransportError`. -/
theorem notification_frame (c : HttpClient) (method : String) (params : Params)
    (send : Request → Except TransportError Unit) :
    c.notification method params send
      = ((send (Request.single
            (Call.notification ⟨Version.v2, method, params⟩))).mapError
          Error.transportError, c)
    ∧ ((c.notification method params send).1 = .ok () ↔
        send (notification_envelope method params) = .ok ())
    ∧ (∀ e, send (notification_envelope method params) = .error e →
        (c.notification method params send).1
          = .error (Error.transportError e)) := by
  refine ⟨rfl, ?_, ?_⟩
  · simp only [HttpClient.notification, notification_envelope]
    cases h : send (Request.single (Call.notification ⟨Version.v2, method, params⟩)) with
    | ok u => simp [h, Except.mapError]
    | error e => simp [h, Except.mapError]
  · intro e he
    simp only [HttpClient.notification, notification_envelope] at he ⊢
    rw [he]
    rfl

theorem notification_frame_witness :
    ((HttpClient.notification ⟨7⟩ "log"
        (Params.map [("msg", JsonValue.str "x")]) (fun _ => .ok ())).1 = .ok ())
    ∧ (HttpClient.notification ⟨7⟩ "log"
        (Params.map [("msg", JsonValue.str "x")]) (fun _ => .ok ())).2
      = (⟨7⟩ : HttpClient) :=
  ⟨((notification_frame ⟨7⟩ "log" (Params.map [("msg", JsonValue.str "x")])
      (fun _ => .ok ())).2.1).mpr rfl,
    congrArg Prod.snd
      (notification_frame ⟨7⟩ "log" (Params.map [("msg", JsonValue.str "x")])
        (fun _ => .ok ())).1⟩

/-! ### Claim C4: how shape mismatches are reported -/

/-- C4 counterexample: at concrete inputs, a `Batch` response to a single
call and a `Single` response to a batch call are rejected with the generic
catch-all `Error::Custom` (carrying a descriptive message), not with a
dedicated shape-mismatch error kind distinct from the catch-all. -/
theorem shape_mismatch_is_custom_cex :
    (HttpClient.request ⟨0⟩ "echo" Params.none
        (fun _ => .ok (Response.batch []))).1
      = .error (Error.custom
          "Server replied with batch response to a single request")
    ∧ (HttpClient.batch_request ⟨0⟩ [("a", Params.none)]
        (fun _ => .ok (Response.single
          (Output.success JsonValue.null (Id.num 0))))).1
      = .error (Error.custom
          "Server replied with single response to a batch request") :=
  ⟨rfl, rfl⟩

/-- C4 amended: shape mismatches are reported through the generic
`Error::Custom` catch-all with a descriptive message (distinct from
`Error::InvalidRequestId`), there being no dedicated `ShapeMismatch` error
kind: any non-`Single` response to a single call and any non-`Batch`
response to a batch call fail this way. -/
theorem shape_mismatch_reported_as_custom (c : HttpClient) (method : String)
    (params : Params) (reqs : List (String × Params))
    (t₁ t₂ : Request → Except TransportError Response) (r₁ r₂ : Response)
    (h₁ : t₁ (request_envelope method params c.request_id) = .ok r₁)
    (hr₁ : ∀ o, r₁ ≠ Response.single o)
    (h₂ : t₂ (Request.batch (build_batch c reqs).1) = .ok r₂)
    (hr₂ : ∀ os, r₂ ≠ Response.batch os) :
    (∃ s, (c.request method params t₁).1 = .error (Error.custom s))
    ∧ (c.request method params t₁).1 ≠ .error Error.invalidRequestId
    ∧ (∃ s, (c.batch_request reqs t₂).1 = .error (Error.custom s))
    ∧ (c.batch_request reqs t₂).1 ≠ .error Error.invalidRequestId := by
  have p₁ : ∃ s, (c.request method params t₁).1 = .error (Error.custom s) := by
    cases r₁ with
    | single o => exact absurd rfl (hr₁ o)
    | batch os =>
      refine ⟨"Server replied with batch response to a single request", ?_⟩
      simp only [HttpClient.request, HttpClient.fetch_add_id, h₁]
    | notif nt =>
      refine ⟨"Server replied with notification response to request ID: "
        ++ toString c.request_id, ?_⟩
      simp only [HttpClient.request, HttpClient.fetch_add_id, h₁]
  have p₂ : ∃ s, (c.batch_request reqs t₂).1 = .error (Error.custom s) := by
    cases r₂ with
    | batch os => exact absurd rfl (hr₂ os)
    | single o =>
      refine ⟨"Server replied with single response to a batch request", ?_⟩
      simp only [HttpClient.batch_request, h₂]
    | notif nt =>
      refine ⟨"Server replied with notification to a a batch request", ?_⟩
      simp only [HttpClient.batch_request, h₂]
  obtain ⟨s₁, hs₁⟩ := p₁
  obtain ⟨s₂, hs₂⟩ := p₂
  exact ⟨⟨s₁, hs₁⟩, by rw [hs₁]; simp, ⟨s₂, hs₂⟩, by rw [hs₂]; simp⟩

theorem shape_mismatch_reported_as_custom_witness :
    (∃ s, (HttpClient.request ⟨0⟩ "echo" Params.none
        (fun _ => .ok (Response.batch []))).1 = .error (Error.custom s))
    ∧ (HttpClient.request ⟨0⟩ "echo" Params.none
        (fun _ => .ok (Response.batch []))).1
      ≠ .error Error.invalidRequestId :=
  let h := shape_mismatch_reported_as_custom ⟨0⟩ "echo" Params.none
    [("a", Params.none)] (fun _ => .ok (Response.batch []))
    (fun _ => .ok (Response.notif ⟨Version.v2, "n", Params.none⟩))
    (Response.batch []) (Response.notif ⟨Version.v2, "n", Params.none⟩)
    rfl (fun o h => by cases h) rfl (fun os h => by cases h)
  ⟨h.1, h.2.1⟩

/-! ### Claim C7: the identifier allocator -/

/-- C7: the allocator is an incrementing counter starting at 0: `k ≤ 2^64`
successive allocations from a fresh client yield `0, 1, 2, ...`, pairwise
distinct; each `request` advances the counter by one and each
`batch_request` by the number of items (mod `2^64`); at the maximum value
the increment does not fail but wraps back to the minimum. -/
theorem allocator_incrementing_counter (k : Nat) (hk : k ≤ U64_MOD) :
    alloc_ids HttpClient.new k = List.range k
    ∧ (alloc_ids HttpClient.new k).Nodup
    ∧ (∀ (c : HttpClient) (method : String) (params : Params)
        (t : Request → Except TransportError Response),
        (c.request method params t).2.request_id
          = (c.request_id + 1) % U64_MOD)
    ∧ (∀ (c : HttpClient) (reqs : List (String × Params))
        (t : Request → Except TransportError Response),
        c.request_id < U64_MOD →
        (c.batch_request reqs t).2.request_id
          = (c.request_id + reqs.length) % U64_MOD)
    ∧ (HttpClient.fetch_add_id ⟨U64_MOD - 1⟩).1 = U64_MOD - 1
    ∧ (HttpClient.fetch_add_id ⟨U64_MOD - 1⟩).2.request_id = 0 := by
  have hr : alloc_ids HttpClient.new k = List.range k := by
    rw [List.range_eq_range' k]
    exact alloc_ids_eq_range' k 0 (by omega)
  refine ⟨hr, ?_, ?_, ?_, rfl, ?_⟩
  · rw [hr]
    exact List.nodup_range k
  · intro c method params t
    rfl
  · intro c reqs t hc
    obtain ⟨n⟩ := c
    exact build_batch_counter n reqs hc
  · show (U64_MOD - 1 + 1) % U64_MOD = 0
    have : U64_MOD - 1 + 1 = U64_MOD := by
      have : 0 < U64_MOD := by simp [U64_MOD]
      omega
    rw [this, Nat.mod_self]

/-! ### Step equations for the batch-response loop -/

theorem process_batch_members_cons_none (ids : Finset Nat) (acc : List JsonValue)
    (rp : Output) (rest : List Output) (hn : rp.idOf.as_number = Option.none) :
    process_batch_members ids acc (rp :: rest) = .error Error.invalidRequestId := by
  simp [process_batch_members, hn]

theorem process_batch_members_cons_notmem (ids : Finset Nat) (acc : List JsonValue)
    (rp : Output) (rest : List Output) (n : Nat)
    (hn : rp.idOf.as_number = some n) (hm : n ∉ ids) :
    process_batch_members ids acc (rp :: rest) = .error Error.invalidRequestId := by
  simp [process_batch_members, hn, hm]

theorem process_batch_members_cons_err (ids : Finset Nat) (acc : List JsonValue)
    (rp : Output) (rest : List Output) (n : Nat) (e : RpcError)
    (hn : rp.idOf.as_number = some n) (hm : n ∈ ids)
    (hv : rp.tryIntoValue = .error e) :
    process_batch_members ids acc (rp :: rest) = .error (Error.request e) := by
  simp [process_batch_members, hn, hm, hv]

theorem process_batch_members_cons_ok (ids : Finset Nat) (acc : List JsonValue)
    (rp : Output) (rest : List Output) (n : Nat) (v : JsonValue)
    (hn : rp.idOf.as_number = some n) (hm : n ∈ ids)
    (hv : rp.tryIntoValue = .ok v) :
    process_batch_members ids acc (rp :: rest)
      = process_batch_members (ids.erase n) (v :: acc) rest := by
  simp [process_batch_members, hn, hm, hv]

theorem remaining_after_cons_ok (ids : Finset Nat) (rp : Output)
    (rest : List Output) (n : Nat) (v : JsonValue)
    (hn : rp.idOf.as_number = some n) (hm : n ∈ ids)
    (hv : rp.tryIntoValue = .ok v) :
    remaining_after ids (rp :: rest) = remaining_after (ids.erase n) rest := by
  simp [remaining_after, hn, hm, hv]

theorem remaining_after_cons_bad (ids : Finset Nat) (rp : Output)
    (rest : List Output)
    (h : rp.idOf.as_number = Option.none
      ∨ (∃ n, rp.idOf.as_number = some n ∧ n ∉ ids)
      ∨ (∃ e, rp.tryIntoValue = .error e)) :
    remaining_after ids (rp :: rest) = Option.none := by
  rcases h with hn | ⟨n, hn, hm⟩ | ⟨e, hv⟩
  · simp [remaining_after, hn]
  · simp [remaining_after, hn, hm]
  · cases hn : rp.idOf.as_number with
    | none => simp [remaining_after, hn]
    | some n =>
      by_cases hm : n ∈ ids
      · simp [remaining_after, hn, hm, hv]
      · simp [remaining_after, hn, hm]

/-! ### Helper lemmas about the batch-response loop -/

theorem process_batch_members_append (pre : List Output) (ids ids' : Finset Nat)
    (acc : List JsonValue) (l : List Output)
    (h : remaining_after ids pre = some ids') :
    ∃ acc', process_batch_members ids acc (pre ++ l)
      = process_batch_members ids' acc' l := by
  induction pre generalizing ids acc with
  | nil =>
    refine ⟨acc, ?_⟩
    have h' : some ids = some ids' := h
    rw [List.nil_append, Option.some.inj h']
  | cons rp rest ih =>
    cases hn : rp.idOf.as_number with
    | none =>
      rw [remaining_after_cons_bad ids rp rest (Or.inl hn)] at h
      exact absurd h (by simp)
    | some n =>
      by_cases hm : n ∈ ids
      · cases hv : rp.tryIntoValue with
        | error e =>
          rw [remaining_after_cons_bad ids rp rest (Or.inr (Or.inr ⟨e, hv⟩))] at h
          exact absurd h (by simp)
        | ok v =>
          rw [remaining_after_cons_ok ids rp rest n v hn hm hv] at h
          obtain ⟨acc', hacc⟩ := ih (ids.erase n) (v :: acc) h
          refine ⟨acc', ?_⟩
          rw [List.cons_append,
            process_batch_members_cons_ok ids acc rp (rest ++ l) n v hn hm hv]
          exact hacc
      · rw [remaining_after_cons_bad ids rp rest (Or.inr (Or.inl ⟨n, hn, hm⟩))] at h
        exact absurd h (by simp)

theorem process_batch_members_all_ok (rps : List Output) (ids : Finset Nat)
    (acc : List JsonValue) (ns : List Nat)
    (hns : rps.map (fun rp => rp.idOf.as_number) = ns.map some)
    (hnd : ns.Nodup)
    (hsub : ∀ n ∈ ns, n ∈ ids)
    (hdec : ∀ rp ∈ rps, ∃ v, rp.tryIntoValue = Except.ok v) :
    process_batch_members ids acc rps
      = .ok (acc.reverse
          ++ rps.filterMap (fun rp => rp.tryIntoValue.toOption)) := by
  induction rps generalizing ids acc ns with
  | nil =>
    simp only [process_batch_members, List.filterMap_nil, List.append_nil]
  | cons rp rest ih =>
    cases ns with
    | nil => simp at hns
    | cons n ns' =>
      simp only [List.map_cons, List.cons.injEq] at hns
      obtain ⟨hn, hrest⟩ := hns
      obtain ⟨v, hv⟩ := hdec rp (by simp)
      have hmem : n ∈ ids := hsub n (by simp)
      simp only [List.nodup_cons] at hnd
      rw [process_batch_members_cons_ok ids acc rp rest n v hn hmem hv]
      rw [ih (ids.erase n) (v :: acc) ns' hrest hnd.2 ?hsub
        (fun rp h => hdec rp (by simp [h]))]
      case hsub =>
        intro m hm
        exact Finset.mem_erase.mpr ⟨fun hEq => hnd.1 (hEq ▸ hm), hsub m (by simp [hm])⟩
      simp [hv, Except.toOption]

theorem filterMap_toOption_length (rps : List Output)
    (hdec : ∀ rp ∈ rps, ∃ v, rp.tryIntoValue = Except.ok v) :
    (rps.filterMap (fun rp => rp.tryIntoValue.toOption)).length = rps.length := by
  induction rps with
  | nil => rfl
  | cons rp rest ih =>
    obtain ⟨v, hv⟩ := hdec rp (by simp)
    have hsome : rp.tryIntoValue.toOption = some v := by rw [hv]; rfl
    simp only [List.filterMap_cons, hsome, List.length_cons]
    rw [ih (fun rp h => hdec rp (by simp [h]))]

/-! ### Claims about the batch-call path -/

/-- C2: a batch response member that, when reached by the loop in received
order, has no numeric ID or carries an ID no longer in the working set of
expected IDs (unknown or already matched, hence duplicated) makes
`batch_request` fail with `Error::InvalidRequestId`. -/
theorem batch_bad_member_invalid_id (c : HttpClient)
    (reqs : List (String × Params))
    (transport : Request → Except TransportError Response)
    (pre : List Output) (bad : Output) (rest : List Output) (ids' : Finset Nat)
    (ht : transport (Request.batch (build_batch c reqs).1)
            = .ok (Response.batch (pre ++ bad :: rest)))
    (hreach : remaining_after (build_batch c reqs).2.1 pre = some ids')
    (hbad : ∀ n, bad.idOf.as_number = some n → n ∉ ids') :
    (c.batch_request reqs transport).1 = .error Error.invalidRequestId := by
  have hexp : (c.batch_request reqs transport).1
      = process_batch_members (build_batch c reqs).2.1 [] (pre ++ bad :: rest) := by
    simp only [HttpClient.batch_request, ht]
  rw [hexp]
  obtain ⟨acc', hacc⟩ :=
    process_batch_members_append pre (build_batch c reqs).2.1 ids' [] (bad :: rest) hreach
  rw [hacc]
  cases hn : bad.idOf.as_number with
  | none => exact process_batch_members_cons_none ids' acc' bad rest hn
  | some n =>
    exact process_batch_members_cons_notmem ids' acc' bad rest n hn (hbad n hn)

theorem batch_bad_member_invalid_id_witness :
    (HttpClient.batch_request ⟨0⟩ [("a", Params.none), ("b", Params.none)]
        (fun _ => .ok (Response.batch
          [Output.success JsonValue.null (Id.num 0),
           Output.success JsonValue.null (Id.num 0)]))).1
      = .error Error.invalidRequestId :=
  batch_bad_member_invalid_id ⟨0⟩ [("a", Params.none), ("b", Params.none)] _
    [Output.success JsonValue.null (Id.num 0)]
    (Output.success JsonValue.null (Id.num 0)) [] ({1} : Finset Nat)
    rfl (by decide)
    (by
      intro n hn
      simp only [Output.idOf, Id.as_number, Option.some.injEq] at hn
      subst hn
      decide)

/-- C3: batch matching is order-independent on ID membership: a batch
response whose members carry exactly the allocated IDs, each once in any
order, and all decode to success payloads, yields `Ok` with one payload per
member in received order (and as many payloads as items sent). -/
theorem batch_order_independent_ok (c : HttpClient)
    (reqs : List (String × Params))
    (transport : Request → Except TransportError Response)
    (rps : List Output) (ns : List Nat)
    (hwrap : c.request_id + reqs.length ≤ U64_MOD)
    (ht : transport (Request.batch (build_batch c reqs).1)
            = .ok (Response.batch rps))
    (hns : rps.map (fun rp => rp.idOf.as_number) = ns.map some)
    (hnd : ns.Nodup)
    (hexact : ns.toFinset = (build_batch c reqs).2.1)
    (hdec : ∀ rp ∈ rps, ∃ v, rp.tryIntoValue = Except.ok v) :
    (c.batch_request reqs transport).1
        = .ok (rps.filterMap (fun rp => rp.tryIntoValue.toOption))
    ∧ (rps.filterMap (fun rp => rp.tryIntoValue.toOption)).length
        = reqs.length := by
  have hexp : (c.batch_request reqs transport).1
      = process_batch_members (build_batch c reqs).2.1 [] rps := by
    simp only [HttpClient.batch_request, ht]
  have hmain := process_batch_members_all_ok rps (build_batch c reqs).2.1 [] ns
    hns hnd (fun n hn => hexact ▸ List.mem_toFinset.mpr hn) hdec
  have hlen : rps.length = reqs.length := by
    have h1 : rps.length = ns.length := by
      have := congrArg List.length hns
      simpa using this
    have h2 : ns.length = ns.toFinset.card := (List.toFinset_card_of_nodup hnd).symm
    have h3 : ns.toFinset.card = reqs.length := by
      obtain ⟨n⟩ := c
      rw [hexact, build_batch_ids_card n reqs hwrap]
    omega
  constructor
  · rw [hexp, hmain, List.reverse_nil, List.nil_append]
  · rw [filterMap_toOption_length rps hdec, hlen]

theorem batch_order_independent_ok_witness :
    (HttpClient.batch_request ⟨0⟩ [("a", Params.none), ("b", Params.none)]
        (fun _ => .ok (Response.batch
          [Output.success (JsonValue.str "rb") (Id.num 1),
           Output.success (JsonValue.str "ra") (Id.num 0)]))).1
      = .ok [JsonValue.str "rb", JsonValue.str "ra"] :=
  (batch_order_independent_ok ⟨0⟩ [("a", Params.none), ("b", Params.none)] _
    [Output.success (JsonValue.str "rb") (Id.num 1),
     Output.success (JsonValue.str "ra") (Id.num 0)] [1, 0]
    (by norm_num [U64_MOD]) rfl rfl (by decide) (by decide)
    (by
      intro rp hrp
      simp only [List.mem_cons, List.not_mem_nil, or_false] at hrp
      rcases hrp with h | h <;> (subst h; exact ⟨_, rfl⟩))).1

/-- C5: building a batch invokes the allocator exactly once per item, in
iteration order — the i-th method call embeds the fresh ID
`request_id + i` and the counter advances by the item count — and, before
any counter wraparound, the member IDs are pairwise distinct and equal, as
a set, to the expected-ID set retained for validation. -/
theorem build_batch_fresh_distinct_ids (c : HttpClient)
    (reqs : List (String × Params))
    (hinv : c.request_id < U64_MOD)
    (hwrap : c.request_id + reqs.length ≤ U64_MOD) :
    (build_batch c reqs).1
      = List.zipWith
          (fun mp i => Call.methodCall ⟨Version.v2, mp.1, mp.2, Id.num i⟩)
          reqs (List.range' c.request_id reqs.length)
    ∧ member_ids (build_batch c reqs).1 = List.range' c.request_id reqs.length
    ∧ (member_ids (build_batch c reqs).1).Nodup
    ∧ (build_batch c reqs).2.1 = (member_ids (build_batch c reqs).1).toFinset
    ∧ (build_batch c reqs).2.2.request_id
        = (c.request_id + reqs.length) % U64_MOD := by
  obtain ⟨n⟩ := c
  have hcalls := build_batch_calls_eq n reqs hwrap
  have hmem : member_ids (build_batch ⟨n⟩ reqs).1 = List.range' n reqs.length := by
    rw [hcalls]
    exact member_ids_zipWith reqs _ (by simp)
  refine ⟨hcalls, hmem, ?_, ?_, ?_⟩
  · rw [hmem]
    exact List.nodup_range' n reqs.length 1 Nat.one_pos
  · rw [hmem]
    exact build_batch_ids_eq n reqs hwrap
  · exact build_batch_counter n reqs hinv

theorem build_batch_fresh_distinct_ids_witness :
    member_ids (build_batch ⟨0⟩ [("a", Params.none), ("b", Params.none)]).1
      = [0, 1]
    ∧ (build_batch ⟨0⟩ [("a", Params.none), ("b", Params.none)]).2.2.request_id
      = 2 :=
  let h := build_batch_fresh_distinct_ids ⟨0⟩
    [("a", Params.none), ("b", Params.none)]
    (by norm_num [U64_MOD]) (by norm_num [U64_MOD])
  ⟨h.2.1.trans (by decide), (h.2.2.2.2).trans (by norm_num [U64_MOD])⟩

theorem process_batch_members_ok_inv (rps : List Output) (ids : Finset Nat)
    (acc vs : List JsonValue)
    (h : process_batch_members ids acc rps = .ok vs) :
    (∀ rp ∈ rps, (∃ n, rp.idOf.as_number = some n)
      ∧ ∃ v, rp.tryIntoValue = Except.ok v)
    ∧ vs = acc.reverse ++ rps.filterMap (fun rp => rp.tryIntoValue.toOption) := by
  induction rps generalizing ids acc with
  | nil =>
    have h' : Except.ok (ε := Error) acc.reverse = Except.ok vs := h
    simp only [Except.ok.injEq] at h'
    exact ⟨by simp, by simp [← h']⟩
  | cons rp rest ih =>
    cases hn : rp.idOf.as_number with
    | none =>
      rw [process_batch_members_cons_none ids acc rp rest hn] at h
      exact absurd h (by simp)
    | some n =>
      by_cases hm : n ∈ ids
      · cases hv : rp.tryIntoValue with
        | error e =>
          rw [process_batch_members_cons_err ids acc rp rest n e hn hm hv] at h
          exact absurd h (by simp)
        | ok v =>
          rw [process_batch_members_cons_ok ids acc rp rest n v hn hm hv] at h
          obtain ⟨hall, hvs⟩ := ih (ids.erase n) (v :: acc) h
          have hsome : rp.tryIntoValue.toOption = some v := by rw [hv]; rfl
          refine ⟨?_, ?_⟩
          · intro rp' hrp'
            rcases List.mem_cons.mp hrp' with hEq | hmem'
            · exact hEq ▸ ⟨⟨n, hn⟩, ⟨v, hv⟩⟩
            · exact hall rp' hmem'
          · rw [hvs, List.filterMap_cons, hsome]
            simp
      · rw [process_batch_members_cons_notmem ids acc rp rest n hn hm] at h
        exact absurd h (by simp)

/-- C6: `batch_request` never reports partial success: `Ok` implies every
received member carried a numeric ID and decoded to a success payload (and
the result has one payload per member, in received order); and a member
reached by the loop that matches an expected ID but decodes to an embedded
RPC error fails the whole call with exactly that error. -/
theorem batch_request_no_partial_success (c : HttpClient)
    (reqs : List (String × Params))
    (transport : Request → Except TransportError Response) (rps : List Output)
    (ht : transport (Request.batch (build_batch c reqs).1)
            = .ok (Response.batch rps)) :
    (∀ vs, (c.batch_request reqs transport).1 = .ok vs →
      (∀ rp ∈ rps, (∃ n, rp.idOf.as_number = some n)
        ∧ ∃ v, rp.tryIntoValue = Except.ok v)
      ∧ vs = rps.filterMap (fun rp => rp.tryIntoValue.toOption)
      ∧ vs.length = rps.length)
    ∧ (∀ (pre : List Output) (bad : Output) (rest : List Output)
        (ids' : Finset Nat) (n : Nat) (e : RpcError),
        rps = pre ++ bad :: rest →
        remaining_after (build_batch c reqs).2.1 pre = some ids' →
        bad.idOf.as_number = some n → n ∈ ids' →
        bad.tryIntoValue = .error e →
        (c.batch_request reqs transport).1 = .error (Error.request e)) := by
  have hexp : (c.batch_request reqs transport).1
      = process_batch_members (build_batch c reqs).2.1 [] rps := by
    simp only [HttpClient.batch_request, ht]
  constructor
  · intro vs hvs
    rw [hexp] at hvs
    obtain ⟨hall, hlist⟩ :=
      process_batch_members_ok_inv rps (build_batch c reqs).2.1 [] vs hvs
    simp only [List.reverse_nil, List.nil_append] at hlist
    refine ⟨hall, hlist, ?_⟩
    rw [hlist]
    exact filterMap_toOption_length rps (fun rp h => (hall rp h).2)
  · intro pre bad rest ids' n e hrps hreach hn hm hv
    rw [hexp, hrps]
    obtain ⟨acc', hacc⟩ := process_batch_members_append pre
      (build_batch c reqs).2.1 ids' [] (bad :: rest) hreach
    rw [hacc]
    exact process_batch_members_cons_err ids' acc' bad rest n e hn hm hv

theorem batch_request_no_partial_success_witness :
    (HttpClient.batch_request ⟨0⟩ [("a", Params.none)]
        (fun _ => .ok (Response.batch
          [Output.failure ⟨-1, "boom"⟩ (Id.num 0)]))).1
      = .error (Error.request ⟨-1, "boom"⟩) :=
  (batch_request_no_partial_success ⟨0⟩ [("a", Params.none)] _
      [Output.failure ⟨-1, "boom"⟩ (Id.num 0)] rfl).2
    [] (Output.failure ⟨-1, "boom"⟩ (Id.num 0)) []
    (build_batch ⟨0⟩ [("a", Params.none)]).2.1 0 ⟨-1, "boom"⟩
    rfl rfl rfl (by decide) rfl

/-- C8: no completeness check beyond per-member membership: a batch
response whose members carry a strict subset of the allocated IDs (each
once, all decoding successfully) is accepted as-is, `batch_request`
returning `Ok` with exactly one payload per received member — fewer than
the number of items sent. -/
theorem batch_subset_accepted (c : HttpClient) (reqs : List (String × Params))
    (transport : Request → Except TransportError Response)
    (rps : List Output) (ns : List Nat)
    (hwrap : c.request_id + reqs.length ≤ U64_MOD)
    (ht : transport (Request.batch (build_batch c reqs).1)
            = .ok (Response.batch rps))
    (hns : rps.map (fun rp => rp.idOf.as_number) = ns.map some)
    (hnd : ns.Nodup)
    (hsub : ns.toFinset ⊂ (build_batch c reqs).2.1)
    (hdec : ∀ rp ∈ rps, ∃ v, rp.tryIntoValue = Except.ok v) :
    (c.batch_request reqs transport).1
        = .ok (rps.filterMap (fun rp => rp.tryIntoValue.toOption))
    ∧ (rps.filterMap (fun rp => rp.tryIntoValue.toOption)).length = rps.length
    ∧ rps.length < reqs.length := by
  have hexp : (c.batch_request reqs transport).1
      = process_batch_members (build_batch c reqs).2.1 [] rps := by
    simp only [HttpClient.batch_request, ht]
  have hmain := process_batch_members_all_ok rps (build_batch c reqs).2.1 [] ns
    hns hnd (fun n hn => hsub.subset (List.mem_toFinset.mpr hn)) hdec
  refine ⟨by rw [hexp, hmain, List.reverse_nil, List.nil_append],
    filterMap_toOption_length rps hdec, ?_⟩
  have h1 : rps.length = ns.length := by simpa using congrArg List.length hns
  have h2 := List.toFinset_card_of_nodup hnd
  have h3 : ns.toFinset.card < (build_batch c reqs).2.1.card :=
    Finset.card_lt_card hsub
  have h4 : (build_batch c reqs).2.1.card = reqs.length := by
    obtain ⟨n⟩ := c
    exact build_batch_ids_card n reqs hwrap
  omega

theorem batch_subset_accepted_witness :
    (HttpClient.batch_request ⟨0⟩ [("a", Params.none), ("b", Params.none)]
        (fun _ => .ok (Response.batch
          [Output.success JsonValue.null (Id.num 1)]))).1
      = .ok [JsonValue.null] :=
  (batch_subset_accepted ⟨0⟩ [("a", Params.none), ("b", Params.none)] _
    [Output.success JsonValue.null (Id.num 1)] [1]
    (by norm_num [U64_MOD]) rfl rfl (by decide) (by decide)
    (by
      intro rp hrp
      simp only [List.mem_cons, List.not_mem_nil, or_false] at hrp
      subst hrp
      exact ⟨_, rfl⟩)).1

/-- C10: an empty batch allocates no IDs and leaves the client state
unchanged, still sends the empty batch envelope through the transport, and
returns `Ok` with an empty payload sequence exactly when the transport
returns a batch response with zero members (any other response still
fails). -/
theorem batch_request_empty_items (c : HttpClient)
    (transport : Request → Except TransportError Response) :
    build_batch c [] = ([], ∅, c)
    ∧ (c.batch_request [] transport).2 = c
    ∧ ∀ vs, ((c.batch_request [] transport).1 = .ok vs ↔
        (transport (Request.batch []) = .ok (Response.batch []) ∧ vs = [])) := by
  refine ⟨rfl, rfl, ?_⟩
  intro vs
  have hred : (c.batch_request [] transport).1
      = match transport (Request.batch []) with
        | .error e => .error (Error.transportError e)
        | .ok (Response.single _) => .error (Error.custom
            "Server replied with single response to a batch request")
        | .ok (Response.notif _) => .error (Error.custom
            "Server replied with notification to a a batch request")
        | .ok (Response.batch rps) => process_batch_members ∅ [] rps := rfl
  have hexp : ∀ r, transport (Request.batch []) = .ok r →
      (c.batch_request [] transport).1
        = match r with
          | Response.single _ => .error (Error.custom
              "Server replied with single response to a batch request")
          | Response.notif _ => .error (Error.custom
              "Server replied with notification to a a batch request")
          | Response.batch rps => process_batch_members ∅ [] rps := by
    intro r hr
    rw [hred, hr]
    cases r <;> rfl
  cases h : transport (Request.batch []) with
  | error e =>
    have herr : (c.batch_request [] transport).1
        = .error (Error.transportError e) := by rw [hred, h]
    simp [herr, h]
  | ok r =>
    cases r with
    | single o => simp [hexp (Response.single o) h, h]
    | notif nt => simp [hexp (Response.notif nt) h, h]
    | batch rps =>
      cases rps with
      | nil =>
        have hok : process_batch_members (∅ : Finset Nat) [] [] = .ok [] := rfl
        simp [hexp (Response.batch []) h, hok, h]
      | cons rp rest =>
        have herr : process_batch_members (∅ : Finset Nat) [] (rp :: rest)
            = .error Error.invalidRequestId := by
          cases hn : rp.idOf.as_number with
          | none => exact process_batch_members_cons_none _ _ _ _ hn
          | some n =>
            exact process_batch_members_cons_notmem _ _ _ _ n hn (by simp)
        simp [hexp (Response.batch (rp :: rest)) h, herr, h]

theorem batch_request_empty_items_witness :
    (HttpClient.batch_request ⟨3⟩ []
        (fun _ => .ok (Response.batch []))).1 = .ok ([] : List JsonValue) :=
  ((batch_request_empty_items ⟨3⟩ (fun _ => .ok (Response.batch []))).2.2
    []).mpr ⟨rfl, rfl⟩

theorem allocator_incrementing_counter_witness :
    alloc_ids HttpClient.new 3 = [0, 1, 2]
    ∧ (alloc_ids HttpClient.new 3).Nodup :=
  let h := allocator_incrementing_counter 3 (by norm_num [U64_MOD])
  ⟨h.1.trans (by decide), h.2.1⟩

end Jsonrpsee
